import Mathlib

/-!
Verification development for the holy-loader repository (v2.3.7).

The TypeScript source is shallowly embedded into Lean:

* Numbers that the source manipulates (progress fractions, speeds) are
  modelled as rationals.  Every timeout in the modelled code paths uses the
  configured transition duration as its delay, so time is measured in whole
  units of that duration, and timer delays are naturals.
* The DOM is modelled at the granularity observed by the code: whether the
  document contains the reserved bar container and spinner elements, and the
  style fields the code reads or writes on them.
* The trickle increment formula of HolyProgress.calculateIncrement
  (0.1 * exp (-5 * status)) involves the transcendental exponential; the
  step functions therefore take the increment function as an explicit
  parameter, and every theorem below holds for an arbitrary such function,
  in particular for the one of the source.
-/

namespace HolyLoader

/-- Embedding of clamp from src/utils.ts:
Math.max(min, Math.min(n, max)). -/
def clamp (n min max : ℚ) : ℚ := Max.max min (Min.min n max)

/-- Text direction option (dir of HolyProgressProps). -/
inductive Dir where
  | ltr
  | rtl
deriving DecidableEq, Repr

/-- Bar height option: a pixel number or a css unit string. -/
inductive Height where
  | px (n : ℚ)
  | css (s : String)
deriving DecidableEq, Repr

/-- Embedding of HolyProgressProps from src/HolyProgress.ts, after the
constructor has merged DEFAULTS with the caller overrides. -/
structure Settings where
  initialPosition : ℚ
  easing : String
  speed : ℚ
  color : String
  height : Height
  zIndex : ℤ
  boxShadow : Option String
  showSpinner : Bool
  dir : Dir
deriving DecidableEq, Repr

/-- Embedding of DEFAULTS from src/constants.ts (the fields consumed by the
HolyProgress constructor). -/
def DEFAULTS : Settings where
  initialPosition := 0.08
  easing := "ease"
  speed := 200
  color := "#59a2ff"
  height := .px 4
  zIndex := 2147483647
  boxShadow := none
  showSpinner := false
  dir := .ltr

/-- CSS positioning strategy detected by getTransformStrategy. -/
inductive TransformStrategy where
  | translate3d
  | translate
  | margin
deriving DecidableEq, Repr

/-- The position style applied to the inner bar element by barPositionCSS or
createBar: which CSS property is set, and the percentage value. -/
inductive PositionCSS where
  | transform3d (percentage : ℚ)
  | transform2d (percentage : ℚ)
  | marginLeft (percentage : ℚ)
deriving DecidableEq, Repr

/-- The document state observed and mutated by HolyProgress: presence of the
element with the reserved id holy-progress, presence of the spinner element,
and the style fields the code writes.  The transform-capability answer of
document.body.style is environment data and is kept as a field that
getTransformStrategy reads on every call. -/
structure Doc where
  bar : Bool
  spinner : Bool
  barOpacity : ℚ
  barPos : PositionCSS
  strategy : TransformStrategy
deriving DecidableEq, Repr

/-- The actions that the modelled code passes to setTimeout.  Every delay in
the modelled paths equals settings.speed, i.e. one time unit. -/
inductive TimerAction where
  | trickleRun
  | callNext
  | fadeStage1
  | fadeStage2
deriving DecidableEq, Repr

/-- State of one HolyProgress instance together with the document, the
serialized animation queue of utils.ts (specialised to the tasks the engine
enqueues, identified by their target value n), and the pending timers.
taskStartCount counts how many enqueued task bodies began executing and
contCount counts how many times a task invoked its continuation; both are
ghost counters used to state the AnimationTask properties. -/
structure EngineState where
  settings : Settings
  progressN : Option ℚ
  barRef : Bool
  doc : Doc
  queuePending : List ℚ
  timers : List (ℕ × TimerAction)
  taskStartCount : ℕ
  contCount : ℕ
deriving DecidableEq, Repr

/-- Embedding of the HolyProgress constructor: progress and the bar
reference start as null; the document is whatever the host document held at
construction time (in particular it may already contain a bar element put
there by an earlier instance). -/
def mkEngine (settings : Settings) (doc : Doc) : EngineState where
  settings := settings
  progressN := none
  barRef := false
  doc := doc
  queuePending := []
  timers := []
  taskStartCount := 0
  contCount := 0

/-- Embedding of toBarPercentage: (-1 + n) * 100 for ltr, (1 - n) * 100 for
rtl. -/
def toBarPercentage (s : Settings) (n : ℚ) : ℚ :=
  if s.dir = .ltr then (-1 + n) * 100 else (1 - n) * 100

/-- Embedding of getTransformStrategy: the capability answer is read from the
document on every call, never cached. -/
def getTransformStrategy (d : Doc) : TransformStrategy := d.strategy

/-- Embedding of barPositionCSS: chooses the CSS property from the freshly
detected strategy and fills in the percentage. -/
def barPositionCSS (s : Settings) (d : Doc) (n : ℚ) : PositionCSS :=
  match getTransformStrategy d with
  | .translate3d => .transform3d (toBarPercentage s n)
  | .translate => .transform2d (toBarPercentage s n)
  | .margin => .marginLeft (toBarPercentage s n)

/-- Embedding of repaintElement from src/utils.ts: reading offsetWidth forces
a layout flush and leaves the modelled state unchanged. -/
def repaintElement (s : EngineState) : EngineState := s

/-- Embedding of createBar: builds the container with the inner bar node,
stores the bar reference on the instance, applies the initial styles (the
source hardcodes a translate3d transform here), and appends the container to
the document body.  The querySelector for the just-created inner node always
succeeds, so the null return branch of the source is dead in the model. -/
def createBar (fromStart : Bool) (s : EngineState) : EngineState :=
  let percentage :=
    toBarPercentage s.settings (if fromStart then 0 else s.progressN.getD 0)
  { s with
    barRef := true
    doc := { s.doc with
      bar := true
      barOpacity := 1
      barPos := .transform3d percentage } }

/-- Embedding of getOrCreateBar: reuse the element with the reserved id if
the document has one (without touching this.bar), otherwise create one. -/
def getOrCreateBar (fromStart : Bool) (s : EngineState) : EngineState :=
  if s.doc.bar then s else createBar fromStart s

/-- Embedding of removeBarFromDOM. -/
def removeBarFromDOM (s : EngineState) : EngineState :=
  { s with doc := { s.doc with bar := false } }

/-- Embedding of removeSpinnerFromDOM. -/
def removeSpinnerFromDOM (s : EngineState) : EngineState :=
  { s with doc := { s.doc with spinner := false } }

/-- Embedding of createSpinner: only creates the spinner element when the
document does not already contain one. -/
def createSpinner (s : EngineState) : EngineState :=
  if s.doc.spinner then s else { s with doc := { s.doc with spinner := true } }

/-- Embedding of the task body that setTo passes to queue, for target value
n.  If this.bar is null the body returns at once, without invoking the
continuation and without scheduling anything.  Otherwise it assigns the
position and transition styles and either schedules the plain continuation
timeout (n different from 1) or starts the two-stage fade (n = 1): set the
container opaque and schedule stage 1 one duration later. -/
def runTask (n : ℚ) (s : EngineState) : EngineState :=
  let s := { s with taskStartCount := s.taskStartCount + 1 }
  if !s.barRef then s
  else
    let s := { s with doc := { s.doc with barPos := barPositionCSS s.settings s.doc n } }
    if n = 1 then
      let s := repaintElement { s with doc := { s.doc with barOpacity := 1 } }
      { s with timers := s.timers ++ [(1, .fadeStage1)] }
    else
      { s with timers := s.timers ++ [(1, .callNext)] }

/-- Embedding of the next function of queue in src/utils.ts: shift the first
pending task off the array and, if there was one, run it. -/
def queueNext (s : EngineState) : EngineState :=
  match s.queuePending with
  | [] => s
  | n :: rest => runTask n { s with queuePending := rest }

/-- Embedding of the returned enqueue closure of queue in src/utils.ts: push
the task and, when the array length just became 1, call next. -/
def enqueueTask (n : ℚ) (s : EngineState) : EngineState :=
  let s := { s with queuePending := s.queuePending ++ [n] }
  if s.queuePending.length = 1 then queueNext s else s

/-- Embedding of setTo: clamp the requested value to
[initialPosition, 1], store it as the new progress (converting exactly 1 to
null at the moment of assignment), obtain or create the bar element, force a
repaint and enqueue the animation task for the clamped value. -/
def setTo (n : ℚ) (s : EngineState) : EngineState :=
  let isStarted := s.progressN.isSome
  let n := clamp n s.settings.initialPosition 1
  let s := { s with progressN := if n = 1 then none else some n }
  let s := getOrCreateBar (!isStarted) s
  enqueueTask n (repaintElement s)

/-- Embedding of startTrickle: schedule the recursive run callback one
duration from now. -/
def startTrickle (s : EngineState) : EngineState :=
  { s with timers := s.timers ++ [(1, .trickleRun)] }

/-- Embedding of start: a no-op unless progress is null; otherwise set the
bar to the start of its range, begin the trickle loop and, if configured,
mount the spinner. -/
def start (s : EngineState) : EngineState :=
  if s.progressN = none then
    let s := startTrickle (setTo 0 s)
    if s.settings.showSpinner then createSpinner s else s
  else s

/-- Embedding of complete: setTo(1). -/
def complete (s : EngineState) : EngineState := setTo 1 s

/-- Embedding of incrementStatus, with the increment formula
calculateIncrement passed as the parameter calcInc (the source formula
0.1 * exp (-5 * status) is transcendental; every theorem below holds for an
arbitrary calcInc).  If progress is null this behaves as start; if progress
exceeds 1 it is a no-op; otherwise the amount (explicit, or computed from
the current status) is added, the sum is clamped to at most 0.994, and the
result is handed to setTo. -/
def incrementStatus (calcInc : ℚ → ℚ) (amount : Option ℚ) (s : EngineState) :
    EngineState :=
  match s.progressN with
  | none => start s
  | some p =>
    if p > 1 then s
    else
      let amount := match amount with
        | some a => a
        | none => calcInc p
      let p := clamp (p + amount) 0 0.994
      setTo p { s with progressN := some p }

/-- Firing one timer callback.  trickleRun is the run closure of
startTrickle: return at once if progress is null, otherwise increment and
re-schedule itself.  callNext is the plain continuation timeout of a task
with n different from 1.  fadeStage1 turns the container transparent and
schedules stage 2.  fadeStage2 removes the bar and the spinner from the
document and invokes the continuation. -/
def fireAction (calcInc : ℚ → ℚ) (a : TimerAction) (s : EngineState) :
    EngineState :=
  match a with
  | .trickleRun =>
    if s.progressN = none then s
    else
      let s := incrementStatus calcInc none s
      { s with timers := s.timers ++ [(1, .trickleRun)] }
  | .callNext => queueNext { s with contCount := s.contCount + 1 }
  | .fadeStage1 =>
    { s with
      doc := { s.doc with barOpacity := 0 }
      timers := s.timers ++ [(1, .fadeStage2)] }
  | .fadeStage2 =>
    let s := removeSpinnerFromDOM (removeBarFromDOM s)
    queueNext { s with contCount := s.contCount + 1 }

/-- One step of the fold that advances the clock by one unit: a timer whose
delay just reached zero fires, any other timer is kept. -/
def tickStep (calcInc : ℚ → ℚ) (acc : EngineState) (t : ℕ × TimerAction) :
    EngineState :=
  if t.1 = 0 then fireAction calcInc t.2 acc
  else { acc with timers := acc.timers ++ [t] }

/-- Advance the clock by one unit of the transition duration: every pending
timer comes one unit closer, the due ones fire in scheduling order, and a
timer scheduled while firing waits for the next unit. -/
def tick (calcInc : ℚ → ℚ) (s : EngineState) : EngineState :=
  let ts := s.timers.map (fun t => (t.1 - 1, t.2))
  ts.foldl (tickStep calcInc) { s with timers := [] }

/-- Iterated clock advance. -/
def tickN (calcInc : ℚ → ℚ) : ℕ → EngineState → EngineState
  | 0, s => s
  | k + 1, s => tickN calcInc k (tick calcInc s)

/-- The externally callable operations of the engine. -/
inductive Op where
  | start
  | increment (amount : Option ℚ)
  | complete
deriving DecidableEq, Repr

/-- Apply one public operation. -/
def applyOp (calcInc : ℚ → ℚ) (op : Op) (s : EngineState) : EngineState :=
  match op with
  | .start => start s
  | .increment amount => incrementStatus calcInc amount s
  | .complete => complete s

/-- Apply a sequence of public operations, oldest first. -/
def applyOps (calcInc : ℚ → ℚ) (ops : List Op) (s : EngineState) : EngineState :=
  ops.foldl (fun s op => applyOp calcInc op s) s

/-- Apply a sequence of increment calls, oldest first; each entry is the
explicit amount or none for the auto-computed one. -/
def applyIncrements (calcInc : ℚ → ℚ) (amounts : List (Option ℚ))
    (s : EngineState) : EngineState :=
  amounts.foldl (fun s a => incrementStatus calcInc a s) s

@[simp] lemma repaintElement_progressN (s : EngineState) :
    (repaintElement s).progressN = s.progressN := rfl

@[simp] lemma repaintElement_settings (s : EngineState) :
    (repaintElement s).settings = s.settings := rfl

@[simp] lemma createBar_progressN (b : Bool) (s : EngineState) :
    (createBar b s).progressN = s.progressN := rfl

@[simp] lemma getOrCreateBar_progressN (b : Bool) (s : EngineState) :
    (getOrCreateBar b s).progressN = s.progressN := by
  unfold getOrCreateBar; split <;> rfl

@[simp] lemma getOrCreateBar_settings (b : Bool) (s : EngineState) :
    (getOrCreateBar b s).settings = s.settings := by
  unfold getOrCreateBar; split <;> rfl

@[simp] lemma runTask_progressN (n : ℚ) (s : EngineState) :
    (runTask n s).progressN = s.progressN := by
  unfold runTask repaintElement
  by_cases h : s.barRef <;> by_cases h2 : n = 1 <;> simp [h, h2]

@[simp] lemma runTask_settings (n : ℚ) (s : EngineState) :
    (runTask n s).settings = s.settings := by
  unfold runTask repaintElement
  by_cases h : s.barRef <;> by_cases h2 : n = 1 <;> simp [h, h2]

@[simp] lemma queueNext_progressN (s : EngineState) :
    (queueNext s).progressN = s.progressN := by
  unfold queueNext
  cases h : s.queuePending <;> simp

@[simp] lemma queueNext_settings (s : EngineState) :
    (queueNext s).settings = s.settings := by
  unfold queueNext
  cases h : s.queuePending <;> simp

@[simp] lemma enqueueTask_progressN (n : ℚ) (s : EngineState) :
    (enqueueTask n s).progressN = s.progressN := by
  unfold enqueueTask
  dsimp only
  split <;> simp

@[simp] lemma enqueueTask_settings (n : ℚ) (s : EngineState) :
    (enqueueTask n s).settings = s.settings := by
  unfold enqueueTask
  dsimp only
  split <;> simp

@[simp] lemma startTrickle_progressN (s : EngineState) :
    (startTrickle s).progressN = s.progressN := rfl

@[simp] lemma startTrickle_settings (s : EngineState) :
    (startTrickle s).settings = s.settings := rfl

@[simp] lemma createSpinner_progressN (s : EngineState) :
    (createSpinner s).progressN = s.progressN := by
  unfold createSpinner; split <;> rfl

@[simp] lemma createSpinner_settings (s : EngineState) :
    (createSpinner s).settings = s.settings := by
  unfold createSpinner; split <;> rfl

lemma setTo_progressN (n : ℚ) (s : EngineState) :
    (setTo n s).progressN =
      (if clamp n s.settings.initialPosition 1 = 1 then none
       else some (clamp n s.settings.initialPosition 1)) := by
  unfold setTo
  simp

@[simp] lemma setTo_settings (n : ℚ) (s : EngineState) :
    (setTo n s).settings = s.settings := by
  unfold setTo
  simp

@[simp] lemma start_settings (s : EngineState) :
    (start s).settings = s.settings := by
  unfold start
  split
  · dsimp only
    split <;> simp
  · rfl

@[simp] lemma incrementStatus_settings (calcInc : ℚ → ℚ) (a : Option ℚ)
    (s : EngineState) : (incrementStatus calcInc a s).settings = s.settings := by
  unfold incrementStatus
  cases h : s.progressN with
  | none => simp
  | some p =>
    dsimp only
    split
    · rfl
    · split <;> simp

lemma clamp_le_max {n min max : ℚ} (h : min ≤ max) : clamp n min max ≤ max :=
  max_le h (min_le_right n max)

lemma clamp_le_bound {n min mx c : ℚ} (hmin : min ≤ c) (hn : n ≤ c) :
    clamp n min mx ≤ c :=
  max_le hmin (le_trans (min_le_left n mx) hn)

lemma le_bound_ne_one {p : ℚ} (h : p ≤ 0.994) : p ≠ 1 :=
  ne_of_lt (lt_of_le_of_lt h (by norm_num))

/-- After setTo the stored progress is some value at most 0.994, provided
both the requested value and the initial position are. -/
lemma setTo_bounded {n : ℚ} (s : EngineState)
    (hip : s.settings.initialPosition ≤ 0.994) (hn : n ≤ 0.994) :
    ∃ p, (setTo n s).progressN = some p ∧ p ≤ 0.994 := by
  have hb : clamp n s.settings.initialPosition 1 ≤ 0.994 := clamp_le_bound hip hn
  refine ⟨clamp n s.settings.initialPosition 1, ?_, hb⟩
  rw [setTo_progressN, if_neg (le_bound_ne_one hb)]

lemma start_bounded (s : EngineState)
    (hip : s.settings.initialPosition ≤ 0.994) (h0 : s.progressN = none) :
    ∃ p, (start s).progressN = some p ∧ p ≤ 0.994 := by
  unfold start
  rw [if_pos h0]
  obtain ⟨p, hp, hb⟩ := setTo_bounded s hip (by norm_num : (0 : ℚ) ≤ 0.994)
  refine ⟨p, ?_, hb⟩
  dsimp only
  split <;> simpa using hp

lemma incrementStatus_bounded (calcInc : ℚ → ℚ) (a : Option ℚ)
    (s : EngineState) (hip : s.settings.initialPosition ≤ 0.994)
    (h : s.progressN = none ∨ ∃ p, s.progressN = some p ∧ p ≤ 0.994) :
    ∃ p, (incrementStatus calcInc a s).progressN = some p ∧ p ≤ 0.994 := by
  unfold incrementStatus
  cases hpn : s.progressN with
  | none => exact start_bounded s hip hpn
  | some p =>
    have hp : p ≤ 0.994 := by
      rcases h with h | ⟨q, hq, hqb⟩
      · rw [h] at hpn; cases hpn
      · rw [hq] at hpn; injection hpn with e; rwa [e] at hqb
    dsimp only
    rw [if_neg (not_lt.mpr (le_trans hp (by norm_num)))]
    have hq : clamp (p + (match a with | some a => a | none => calcInc p)) 0 0.994 ≤ 0.994 :=
      clamp_le_max (by norm_num)
    exact setTo_bounded _ hip hq

lemma applyIncrements_bounded (calcInc : ℚ → ℚ) (amounts : List (Option ℚ)) :
    ∀ s : EngineState, s.settings.initialPosition ≤ 0.994 →
      (∃ p, s.progressN = some p ∧ p ≤ 0.994) →
      ∃ p, (applyIncrements calcInc amounts s).progressN = some p ∧ p ≤ 0.994 := by
  induction amounts with
  | nil => intro s _ hp; simpa [applyIncrements] using hp
  | cons a rest ih =>
    intro s hip hp
    have h1 := incrementStatus_bounded calcInc a s hip (Or.inr hp)
    have h2 : (incrementStatus calcInc a s).settings.initialPosition ≤ 0.994 := by
      rw [incrementStatus_settings]; exact hip
    simpa [applyIncrements] using ih (incrementStatus calcInc a s) h2 h1

/-- C1: for every engine instance whose initialPosition is the default or
any value at most 0.994, after start() no number of subsequent increment()
calls — with or without explicit amounts, and for an arbitrary automatic
increment function — ever makes the stored progress value exactly 1 or
greater than 0.994. -/
theorem increment_never_self_completes
    (calcInc : ℚ → ℚ) (s : EngineState) (amounts : List (Option ℚ))
    (hip : s.settings.initialPosition ≤ 0.994) (h0 : s.progressN = none) :
    ∃ p, (applyIncrements calcInc amounts (start s)).progressN = some p ∧
      p ≤ 0.994 ∧ p ≠ 1 := by
  have hs : (start s).settings.initialPosition ≤ 0.994 := by
    rw [start_settings]; exact hip
  obtain ⟨p, hp, hb⟩ :=
    applyIncrements_bounded calcInc amounts (start s) hs (start_bounded s hip h0)
  exact ⟨p, hp, hb, le_bound_ne_one hb⟩

/-- A sample host document: no bar, no spinner, 3-D transforms available. -/
def sampleDoc : Doc where
  bar := false
  spinner := false
  barOpacity := 1
  barPos := .transform3d (-100)
  strategy := .translate3d

theorem increment_never_self_completes_witness :
    ∃ p, (applyIncrements (fun _ => 1/20) [none, some (1/2), none]
        (start (mkEngine DEFAULTS sampleDoc))).progressN = some p ∧
      p ≤ 0.994 ∧ p ≠ 1 :=
  increment_never_self_completes (fun _ => 1/20) (mkEngine DEFAULTS sampleDoc)
    [none, some (1/2), none] (by norm_num [mkEngine, DEFAULTS]) rfl

lemma start_progressN_of_none (s : EngineState) (hn : s.progressN = none) :
    (start s).progressN =
      (if clamp 0 s.settings.initialPosition 1 = 1 then none
       else some (clamp 0 s.settings.initialPosition 1)) := by
  unfold start
  rw [if_pos hn]
  dsimp only
  split <;> simp [setTo_progressN]

lemma start_of_some (s : EngineState) (hn : s.progressN ≠ none) :
    start s = s := by
  unfold start
  rw [if_neg hn]

/-- After setTo the stored progress lies in the closed interval from the
initial position to 0.994, provided both the requested value and the initial
position are at most 0.994. -/
lemma setTo_interval (n : ℚ) (s : EngineState)
    (hip : s.settings.initialPosition ≤ 0.994) (hn : n ≤ 0.994) :
    ∃ p, (setTo n s).progressN = some p ∧
      s.settings.initialPosition ≤ p ∧ p ≤ 0.994 := by
  have hb : clamp n s.settings.initialPosition 1 ≤ 0.994 := clamp_le_bound hip hn
  refine ⟨clamp n s.settings.initialPosition 1, ?_, le_max_left _ _, hb⟩
  rw [setTo_progressN, if_neg (le_bound_ne_one hb)]

/-- complete always stores null at the moment of assignment: the requested
value 1 survives the clamp (the initial position is at most 1) and setTo
converts it to null. -/
lemma complete_progressN (s : EngineState)
    (hip : s.settings.initialPosition ≤ 1) :
    (complete s).progressN = none := by
  unfold complete
  rw [setTo_progressN, if_pos ?_]
  unfold clamp
  rw [min_self, max_eq_right hip]

/-- The stored progress is null or lies in [initialPosition, 0.994]. -/
def ProgressInInterval (s : EngineState) : Prop :=
  s.progressN = none ∨
    ∃ p, s.progressN = some p ∧
      s.settings.initialPosition ≤ p ∧ p ≤ 0.994

lemma start_interval (s : EngineState)
    (h0 : 0 ≤ s.settings.initialPosition)
    (h1 : s.settings.initialPosition ≤ 0.994)
    (h : ProgressInInterval s) : ProgressInInterval (start s) := by
  by_cases hn : s.progressN = none
  · right
    have hc : clamp 0 s.settings.initialPosition 1 = s.settings.initialPosition := by
      unfold clamp
      rw [min_eq_left (by norm_num : (0:ℚ) ≤ 1), max_eq_left h0]
    refine ⟨s.settings.initialPosition, ?_, ?_, h1⟩
    · rw [start_progressN_of_none s hn, hc, if_neg (le_bound_ne_one h1)]
    · simp [start_settings]
  · rw [start_of_some s hn]
    exact h

lemma incrementStatus_interval (calcInc : ℚ → ℚ) (a : Option ℚ)
    (s : EngineState)
    (h0 : 0 ≤ s.settings.initialPosition)
    (h1 : s.settings.initialPosition ≤ 0.994)
    (h : ProgressInInterval s) :
    ProgressInInterval (incrementStatus calcInc a s) := by
  unfold incrementStatus
  cases hpn : s.progressN with
  | none =>
    have := start_interval s h0 h1 h
    simpa using this
  | some p =>
    have hp : s.settings.initialPosition ≤ p ∧ p ≤ 0.994 := by
      rcases h with h | ⟨q, hq, hql, hqb⟩
      · rw [h] at hpn; cases hpn
      · rw [hq] at hpn; injection hpn with e; rw [e] at hql hqb; exact ⟨hql, hqb⟩
    dsimp only
    rw [if_neg (not_lt.mpr (le_trans hp.2 (by norm_num)))]
    generalize (match a with | some a => a | none => calcInc p) = amt
    have hq : clamp (p + amt) 0 0.994 ≤ 0.994 := clamp_le_max (by norm_num)
    right
    obtain ⟨r, hr, hrl, hrb⟩ :=
      setTo_interval (clamp (p + amt) 0 0.994)
        { s with progressN := some (clamp (p + amt) 0 0.994) } h1 hq
    exact ⟨r, hr, by rw [setTo_settings]; exact hrl, hrb⟩

lemma complete_interval (s : EngineState)
    (h1 : s.settings.initialPosition ≤ 0.994) :
    ProgressInInterval (complete s) :=
  Or.inl (complete_progressN s (le_trans h1 (by norm_num)))

@[simp] lemma applyOp_settings (calcInc : ℚ → ℚ) (op : Op) (s : EngineState) :
    (applyOp calcInc op s).settings = s.settings := by
  cases op with
  | start => exact start_settings s
  | increment a => exact incrementStatus_settings calcInc a s
  | complete => exact setTo_settings 1 s

lemma applyOps_settings (calcInc : ℚ → ℚ) (ops : List Op) :
    ∀ s : EngineState, (applyOps calcInc ops s).settings = s.settings := by
  induction ops with
  | nil => intro s; rfl
  | cons op rest ih =>
    intro s
    have := ih (applyOp calcInc op s)
    simpa [applyOps, applyOp_settings] using this

lemma applyOps_interval (calcInc : ℚ → ℚ) (ops : List Op) :
    ∀ s : EngineState, 0 ≤ s.settings.initialPosition →
      s.settings.initialPosition ≤ 0.994 → ProgressInInterval s →
      ProgressInInterval (applyOps calcInc ops s) := by
  induction ops with
  | nil => intro s _ _ h; simpa [applyOps] using h
  | cons op rest ih =>
    intro s h0 h1 h
    have hstep : ProgressInInterval (applyOp calcInc op s) := by
      cases op with
      | start => exact start_interval s h0 h1 h
      | increment a => exact incrementStatus_interval calcInc a s h0 h1 h
      | complete => exact complete_interval s h1
    have e := applyOp_settings calcInc op s
    have := ih (applyOp calcInc op s) (by rw [e]; exact h0) (by rw [e]; exact h1) hstep
    simpa [applyOps] using this

/-- C10: for every engine constructed with an initialPosition in [0, 0.994],
after any sequence of start, increment and complete calls the stored
progress is either null or a value in the closed interval
[initialPosition, 0.994]; in particular the value 1 is never stored —
complete's requested 1 is converted to null at the moment of assignment. -/
theorem progress_always_null_or_in_interval
    (calcInc : ℚ → ℚ) (settings : Settings) (doc : Doc) (ops : List Op)
    (h0 : 0 ≤ settings.initialPosition)
    (h1 : settings.initialPosition ≤ 0.994) :
    (applyOps calcInc ops (mkEngine settings doc)).progressN = none ∨
      ∃ p, (applyOps calcInc ops (mkEngine settings doc)).progressN = some p ∧
        settings.initialPosition ≤ p ∧ p ≤ 0.994 ∧ p ≠ 1 := by
  have h := applyOps_interval calcInc ops (mkEngine settings doc) h0 h1
    (Or.inl rfl)
  have e : (applyOps calcInc ops (mkEngine settings doc)).settings = settings :=
    applyOps_settings calcInc ops (mkEngine settings doc)
  rcases h with h | ⟨p, hp, hl, hb⟩
  · exact Or.inl h
  · rw [e] at hl
    exact Or.inr ⟨p, hp, hl, hb, le_bound_ne_one hb⟩

lemma queueNext_of_empty (s : EngineState) (h : s.queuePending = []) :
    queueNext s = s := by
  unfold queueNext
  rw [h]

/-- Folding the tick step over timers that all carry the trickle action
leaves a state with null progress unchanged except that the still-waiting
timers (again all trickle) are appended: the run callback of startTrickle
returns at once when progress is null. -/
lemma foldl_trickle_noop (calcInc : ℚ → ℚ) (ts : List (ℕ × TimerAction)) :
    ∀ b : EngineState, (∀ t ∈ ts, t.2 = TimerAction.trickleRun) →
      b.progressN = none →
      ∃ tr, ts.foldl (tickStep calcInc) b = { b with timers := b.timers ++ tr } ∧
        ∀ t ∈ tr, t.2 = TimerAction.trickleRun := by
  induction ts with
  | nil => intro b _ _; exact ⟨[], by simp, by simp⟩
  | cons t ts ih =>
    intro b hts hb
    have ht : t.2 = TimerAction.trickleRun := hts t (List.mem_cons_self t ts)
    have hts2 : ∀ u ∈ ts, u.2 = TimerAction.trickleRun :=
      fun u hu => hts u (List.mem_cons_of_mem t hu)
    rw [List.foldl_cons]
    by_cases h0 : t.1 = 0
    · have estep : tickStep calcInc b t = b := by
        unfold tickStep
        rw [if_pos h0, ht]
        unfold fireAction
        simp [hb]
      rw [estep]
      exact ih b hts2 hb
    · have estep : tickStep calcInc b t = { b with timers := b.timers ++ [t] } := by
        unfold tickStep
        rw [if_neg h0]
      rw [estep]
      obtain ⟨tr, e, htr⟩ := ih { b with timers := b.timers ++ [t] } hts2 hb
      refine ⟨t :: tr, ?_, ?_⟩
      · rw [e]; simp
      · intro u hu
        rcases List.mem_cons.mp hu with h | h
        · rw [h]; exact ht
        · exact htr u h

/-- When a state with null progress holds only trickle timers plus one final
timer due now, advancing the clock by one unit amounts to firing that final
timer on the state whose remaining timers are the surviving trickles. -/
lemma tick_eq_fireAction_last (calcInc : ℚ → ℚ) (c : EngineState)
    (T : List (ℕ × TimerAction)) (a : TimerAction)
    (hT : ∀ t ∈ T, t.2 = TimerAction.trickleRun)
    (hc : c.progressN = none)
    (e : c.timers = T ++ [(1, a)]) :
    ∃ tr, (∀ t ∈ tr, t.2 = TimerAction.trickleRun) ∧
      tick calcInc c = fireAction calcInc a { c with timers := tr } := by
  unfold tick
  rw [e, List.map_append, List.foldl_append]
  have hT2 : ∀ t ∈ T.map (fun t => (t.1 - 1, t.2)), t.2 = TimerAction.trickleRun := by
    intro t htm
    obtain ⟨u, hu, eu⟩ := List.mem_map.mp htm
    rw [← eu]
    exact hT u hu
  obtain ⟨tr, etr, htr⟩ :=
    foldl_trickle_noop calcInc (T.map (fun t => (t.1 - 1, t.2)))
      { c with timers := [] } hT2 hc
  refine ⟨tr, htr, ?_⟩
  rw [etr]
  simp [tickStep]

/-- Synchronous effect of complete on a quiescent engine (empty queue):
progress becomes null at once, the bar element is present (reused or
created), the queue is drained again, and the only new timer is stage 1 of
the fade, due one duration from now. -/
lemma complete_fields (s : EngineState)
    (hip : s.settings.initialPosition ≤ 1) (hq : s.queuePending = [])
    (hb : s.doc.bar = true → s.barRef = true) :
    (complete s).progressN = none ∧
    (complete s).queuePending = [] ∧
    (complete s).timers = s.timers ++ [(1, TimerAction.fadeStage1)] ∧
    (complete s).doc.bar = true ∧
    (complete s).doc.spinner = s.doc.spinner := by
  have hc : clamp 1 s.settings.initialPosition 1 = 1 := by
    unfold clamp
    rw [min_self, max_eq_right hip]
  unfold complete setTo enqueueTask queueNext runTask getOrCreateBar createBar
    repaintElement
  by_cases hbar : s.doc.bar
  · have hr := hb hbar
    simp [hc, hq, hbar, hr]
  · simp [hc, hq, hbar]

/-- C2 (amended): complete() stores null as the progress immediately — the
setTo assignment converts the requested 1 to null synchronously, while the
bar is still mounted — and two transition durations later (one for the bar
to finish moving, one for the fade) the bar and spinner elements are removed
from the document, with the progress still null: the engine is Idle.  The
prior progress value is arbitrary; the engine is otherwise quiescent (empty
animation queue, only trickle timers pending, and a mounted bar implies the
instance holds the bar reference). -/
theorem complete_two_durations_to_idle
    (calcInc : ℚ → ℚ) (s : EngineState)
    (hip : s.settings.initialPosition ≤ 1)
    (hq : s.queuePending = [])
    (ht : ∀ t ∈ s.timers, t.2 = TimerAction.trickleRun)
    (hb : s.doc.bar = true → s.barRef = true) :
    (complete s).progressN = none ∧
    (complete s).doc.bar = true ∧
    (tickN calcInc 2 (complete s)).progressN = none ∧
    (tickN calcInc 2 (complete s)).doc.bar = false ∧
    (tickN calcInc 2 (complete s)).doc.spinner = false := by
  obtain ⟨h1, h2, h3, h4, h5⟩ := complete_fields s hip hq hb
  obtain ⟨tr1, htr1, e1⟩ :=
    tick_eq_fireAction_last calcInc (complete s) s.timers .fadeStage1 ht h1 h3
  have hc2 : tick calcInc (complete s) =
      { complete s with
        doc := { (complete s).doc with barOpacity := 0 }
        timers := tr1 ++ [(1, TimerAction.fadeStage2)] } := by
    rw [e1]; rfl
  obtain ⟨tr2, htr2, e2⟩ :=
    tick_eq_fireAction_last calcInc (tick calcInc (complete s)) tr1 .fadeStage2
      (by intro t htm; exact htr1 t htm)
      (by rw [hc2]; exact h1)
      (by rw [hc2])
  have e3 : tickN calcInc 2 (complete s) =
      fireAction calcInc .fadeStage2
        { tick calcInc (complete s) with timers := tr2 } := by
    show tick calcInc (tick calcInc (complete s)) = _
    exact e2
  have e4 : fireAction calcInc .fadeStage2
      { tick calcInc (complete s) with timers := tr2 } =
      queueNext
        { tick calcInc (complete s) with
          timers := tr2
          doc := { (tick calcInc (complete s)).doc with bar := false, spinner := false }
          contCount := (tick calcInc (complete s)).contCount + 1 } := by
    rw [hc2]; rfl
  have hqp : ({ tick calcInc (complete s) with
      timers := tr2
      doc := { (tick calcInc (complete s)).doc with bar := false, spinner := false }
      contCount := (tick calcInc (complete s)).contCount + 1 } :
        EngineState).queuePending = [] := by
    rw [hc2]; exact h2
  rw [e3, e4, queueNext_of_empty _ hqp]
  refine ⟨h1, h4, ?_, rfl, rfl⟩
  rw [hc2]; exact h1

namespace TaskQueue

/-- State of the serialized task queue of src/utils.ts over an abstract task
type: pending is the array the closure captures.  inFlight and started are
ghost fields recording the observable execution: inFlight holds the tasks
whose body has been invoked but whose continuation has not yet run (the
modelled tasks are asynchronous, as every task the engine enqueues is), and
started logs every task start in order. -/
structure QState (τ : Type) where
  pending : List τ
  inFlight : List τ
  started : List τ
deriving DecidableEq, Repr

/-- The queue closure starts with an empty array and nothing run yet. -/
def initial {τ : Type} : QState τ := ⟨[], [], []⟩

/-- Embedding of the next function: shift the first pending task off the
array and, if there was one, invoke it with the continuation; its effect
begins now and its continuation will fire later. -/
def runNext {τ : Type} (s : QState τ) : QState τ :=
  match s.pending with
  | [] => s
  | t :: rest => ⟨rest, s.inFlight ++ [t], s.started ++ [t]⟩

/-- Embedding of the returned enqueue closure: push the task and, when the
array length just became 1, call next. -/
def enqueue {τ : Type} (t : τ) (s : QState τ) : QState τ :=
  let s2 : QState τ := { s with pending := s.pending ++ [t] }
  if s2.pending.length = 1 then runNext s2 else s2

/-- An in-flight task invokes its continuation: the task is done and the
continuation — which is next itself — runs. -/
def fire {τ : Type} [DecidableEq τ] (t : τ) (s : QState τ) : QState τ :=
  if t ∈ s.inFlight then runNext { s with inFlight := s.inFlight.erase t }
  else s

/-- Observable queue events: a client enqueues a task, or an in-flight task
invokes its continuation. -/
inductive QEvent (τ : Type) where
  | enqueue (t : τ)
  | fire (t : τ)
deriving DecidableEq, Repr

def applyEvent {τ : Type} [DecidableEq τ] (e : QEvent τ) (s : QState τ) :
    QState τ :=
  match e with
  | .enqueue t => enqueue t s
  | .fire t => fire t s

def applyEvents {τ : Type} [DecidableEq τ] (evs : List (QEvent τ))
    (s : QState τ) : QState τ :=
  evs.foldl (fun s e => applyEvent e s) s

/-- The tasks enqueued by a sequence of events, in order. -/
def enqueuedOf {τ : Type} : List (QEvent τ) → List τ
  | [] => []
  | .enqueue t :: evs => t :: enqueuedOf evs
  | .fire _ :: evs => enqueuedOf evs

lemma runNext_started_pending {τ : Type} (s : QState τ) :
    (runNext s).started ++ (runNext s).pending = s.started ++ s.pending := by
  unfold runNext
  cases h : s.pending with
  | nil => simp [h]
  | cons t rest => simp [h]

lemma applyEvent_started_pending {τ : Type} [DecidableEq τ] (e : QEvent τ)
    (s : QState τ) :
    (applyEvent e s).started ++ (applyEvent e s).pending =
      s.started ++ s.pending ++ enqueuedOf [e] := by
  cases e with
  | enqueue t =>
    show (enqueue t s).started ++ (enqueue t s).pending = _
    unfold enqueue
    dsimp only
    split
    · rw [runNext_started_pending]
      simp [enqueuedOf]
    · simp [enqueuedOf]
  | fire t =>
    show (fire t s).started ++ (fire t s).pending = _
    unfold fire
    split
    · rw [runNext_started_pending]
      simp [enqueuedOf]
    · simp [enqueuedOf]

lemma applyEvents_started_pending {τ : Type} [DecidableEq τ]
    (evs : List (QEvent τ)) :
    ∀ s : QState τ,
      (applyEvents evs s).started ++ (applyEvents evs s).pending =
        s.started ++ s.pending ++ enqueuedOf evs := by
  induction evs with
  | nil => intro s; simp [applyEvents, enqueuedOf]
  | cons e evs ih =>
    intro s
    have h1 := applyEvent_started_pending e s
    have h2 := ih (applyEvent e s)
    calc (applyEvents (e :: evs) s).started ++ (applyEvents (e :: evs) s).pending
        = (applyEvents evs (applyEvent e s)).started ++
            (applyEvents evs (applyEvent e s)).pending := rfl
      _ = (applyEvent e s).started ++ (applyEvent e s).pending ++
            enqueuedOf evs := h2
      _ = s.started ++ s.pending ++ enqueuedOf [e] ++ enqueuedOf evs := by
            rw [h1]
      _ = s.started ++ s.pending ++ enqueuedOf (e :: evs) := by
            cases e <;> simp [enqueuedOf]

end TaskQueue

/-- C3 counterexample: the claim says at most one task is in flight at any
time and a later task starts only after the prior task invokes its
continuation.  But enqueue two asynchronous tasks, with no continuation
having fired in between: both task bodies have been invoked and neither has
called its continuation — two tasks are in flight at once, and the second
started while the first was still in flight (the running task is shifted
off the pending array, so the array is empty again and the length-one test
succeeds immediately). -/
theorem queue_two_tasks_in_flight :
    (TaskQueue.enqueue 1 (TaskQueue.enqueue 0
        (TaskQueue.initial : TaskQueue.QState ℕ))).inFlight = [0, 1] ∧
    (TaskQueue.enqueue 0
        (TaskQueue.initial : TaskQueue.QState ℕ)).inFlight = [0] := by
  decide

/-- C3 (amended): the queue preserves FIFO order — after any event sequence
from the initial state, the enqueued tasks in order are exactly the started
log followed by the still-pending array, so tasks start in enqueue order —
and enqueuing onto an idle queue (empty pending array) starts that task
immediately.  The single-flight half of the original claim is dropped: a
task enqueued while the pending array is empty starts at once even when a
previously started task has not yet invoked its continuation, because a
running task is already shifted off the array. -/
theorem queue_fifo_and_immediate_start {τ : Type} [DecidableEq τ]
    (evs : List (TaskQueue.QEvent τ)) (s : TaskQueue.QState τ) (t : τ)
    (hp : s.pending = []) :
    (TaskQueue.applyEvents evs TaskQueue.initial).started ++
        (TaskQueue.applyEvents evs TaskQueue.initial).pending =
      TaskQueue.enqueuedOf evs ∧
    (TaskQueue.enqueue t s).started = s.started ++ [t] := by
  constructor
  · have := TaskQueue.applyEvents_started_pending evs
      (TaskQueue.initial : TaskQueue.QState τ)
    simpa [TaskQueue.initial] using this
  · unfold TaskQueue.enqueue
    dsimp only
    rw [hp]
    simp [TaskQueue.runNext]

theorem queue_fifo_and_immediate_start_witness :
    (TaskQueue.applyEvents
        [TaskQueue.QEvent.enqueue 7, TaskQueue.QEvent.fire 7,
          TaskQueue.QEvent.enqueue 9]
        TaskQueue.initial).started ++
      (TaskQueue.applyEvents
        [TaskQueue.QEvent.enqueue 7, TaskQueue.QEvent.fire 7,
          TaskQueue.QEvent.enqueue 9]
        TaskQueue.initial).pending =
      TaskQueue.enqueuedOf
        [TaskQueue.QEvent.enqueue 7, TaskQueue.QEvent.fire 7,
          TaskQueue.QEvent.enqueue 9] ∧
    (TaskQueue.enqueue 3 (TaskQueue.initial : TaskQueue.QState ℕ)).started =
      (TaskQueue.initial : TaskQueue.QState ℕ).started ++ [3] :=
  queue_fifo_and_immediate_start
    [TaskQueue.QEvent.enqueue 7, TaskQueue.QEvent.fire 7,
      TaskQueue.QEvent.enqueue 9]
    TaskQueue.initial 3 rfl

/-- A started engine at progress one half: bar mounted and referenced, a
pending trickle timer, empty animation queue. -/
def midRunState : EngineState where
  settings := DEFAULTS
  progressN := some (1/2)
  barRef := true
  doc := { bar := true, spinner := false, barOpacity := 1,
           barPos := .transform3d (-50), strategy := .translate3d }
  queuePending := []
  timers := [(1, .trickleRun)]
  taskStartCount := 1
  contCount := 1

/-- C2 counterexample: the claim says the progress value is reset to null
only after the exit animation completes, not before; but already immediately
after complete() returns — before any transition duration has elapsed and
while the bar element is still in the document — the stored progress is
null. -/
theorem complete_resets_progress_immediately :
    (complete midRunState).progressN = none ∧
    (complete midRunState).doc.bar = true := by
  constructor
  · exact complete_progressN midRunState (by norm_num [midRunState, DEFAULTS])
  · exact (complete_fields midRunState (by norm_num [midRunState, DEFAULTS])
      rfl (fun _ => rfl)).2.2.2.1

theorem complete_two_durations_to_idle_witness :
    (complete midRunState).progressN = none ∧
    (complete midRunState).doc.bar = true ∧
    (tickN (fun _ => 1/20) 2 (complete midRunState)).progressN = none ∧
    (tickN (fun _ => 1/20) 2 (complete midRunState)).doc.bar = false ∧
    (tickN (fun _ => 1/20) 2 (complete midRunState)).doc.spinner = false :=
  complete_two_durations_to_idle (fun _ => 1/20) midRunState
    (by norm_num [midRunState, DEFAULTS]) rfl
    (by intro t htm; simp [midRunState] at htm; rw [htm]) (fun _ => rfl)

theorem progress_always_null_or_in_interval_witness :
    (applyOps (fun _ => 1/20) [.start, .increment none, .complete,
        .increment (some 2)] (mkEngine DEFAULTS sampleDoc)).progressN = none ∨
      ∃ p, (applyOps (fun _ => 1/20) [.start, .increment none, .complete,
          .increment (some 2)] (mkEngine DEFAULTS sampleDoc)).progressN = some p ∧
        DEFAULTS.initialPosition ≤ p ∧ p ≤ 0.994 ∧ p ≠ 1 :=
  progress_always_null_or_in_interval (fun _ => 1/20) DEFAULTS sampleDoc
    [.start, .increment none, .complete, .increment (some 2)]
    (by norm_num [DEFAULTS]) (by norm_num [DEFAULTS])

lemma tickN_two (calcInc : ℚ → ℚ) (s : EngineState) :
    tickN calcInc 2 s = tick calcInc (tick calcInc s) := rfl

/-- A host document that already contains a bar element with the reserved id
(left behind by an earlier engine instance). -/
def staleDoc : Doc where
  bar := true
  spinner := false
  barOpacity := 1
  barPos := .transform3d (-100)
  strategy := .translate3d

/-- C4 counterexample: on an instance constructed while the document already
holds a stale bar element, getOrCreateBar reuses that element without ever
assigning this.bar, so the enqueued task runs with a null bar reference, and
its body returns without invoking the continuation: the task body started
(taskStartCount is 1) yet even after two transition durations — the claim
says the continuation fires when the fixed-duration transition has elapsed —
the continuation count is still zero. -/
theorem task_with_null_bar_never_calls_continuation :
    (start (mkEngine DEFAULTS staleDoc)).taskStartCount = 1 ∧
    (tickN (fun _ => 1/20) 2 (start (mkEngine DEFAULTS staleDoc))).contCount
      = 0 := by
  constructor
  · norm_num [start, mkEngine, DEFAULTS, staleDoc, setTo, clamp,
      getOrCreateBar, createBar, repaintElement, enqueueTask, queueNext,
      runTask, startTrickle, createSpinner]
  · norm_num [tickN_two, start, mkEngine, DEFAULTS, staleDoc, setTo, clamp,
      getOrCreateBar, createBar, repaintElement, enqueueTask, queueNext,
      runTask, startTrickle, createSpinner, tick, tickStep, fireAction,
      incrementStatus, Option.some_ne_none]

/-- C4 (amended): a task the engine enqueues on an otherwise quiescent
engine invokes its continuation exactly once when the bar reference is
non-null at the time the task runs — one transition duration after starting
for an ordinary move, two for the completion task, after which no timer of
the task remains — but when the bar reference is null the task body returns
immediately: it never invokes its continuation and schedules nothing. -/
theorem task_continuation_exactly_once_when_bar_present
    (calcInc : ℚ → ℚ) (s : EngineState) (n : ℚ)
    (hq : s.queuePending = []) (htm : s.timers = []) :
    (s.barRef = true →
      (tickN calcInc 2 (enqueueTask n s)).contCount = s.contCount + 1 ∧
      (tickN calcInc 2 (enqueueTask n s)).timers = []) ∧
    (s.barRef = false →
      (enqueueTask n s).taskStartCount = s.taskStartCount + 1 ∧
      (enqueueTask n s).contCount = s.contCount ∧
      (enqueueTask n s).timers = []) := by
  have he : enqueueTask n s = runTask n { s with queuePending := [] } := by
    unfold enqueueTask
    dsimp only
    rw [hq]
    simp [queueNext]
  constructor
  · intro hbr
    rw [tickN_two, he]
    by_cases hn : n = 1
    · simp [runTask, repaintElement, hbr, hn, htm, tick, tickStep,
        fireAction, queueNext, removeBarFromDOM, removeSpinnerFromDOM]
    · simp [runTask, repaintElement, hbr, hn, htm, tick, tickStep,
        fireAction, queueNext, removeBarFromDOM, removeSpinnerFromDOM]
  · intro hbr
    rw [he]
    constructor
    · simp [runTask, hbr]
    constructor
    · simp [runTask, hbr]
    · simp [runTask, hbr, htm]

/-- A started engine holding the bar reference, with nothing queued and no
timers pending. -/
def quietState : EngineState where
  settings := DEFAULTS
  progressN := some (1/2)
  barRef := true
  doc := { bar := true, spinner := false, barOpacity := 1,
           barPos := .transform3d (-50), strategy := .translate3d }
  queuePending := []
  timers := []
  taskStartCount := 1
  contCount := 1

theorem task_continuation_exactly_once_witness :
    (tickN (fun _ => 1/20) 2 (enqueueTask (1/2) quietState)).contCount =
      quietState.contCount + 1 ∧
    (tickN (fun _ => 1/20) 2 (enqueueTask (1/2) quietState)).timers = [] :=
  (task_continuation_exactly_once_when_bar_present (fun _ => 1/20)
    quietState (1/2) rfl rfl).1 rfl

namespace UrlModel

/-- A parsed URL as produced by the browser's new URL (an external
collaborator whose contract is consumed, not re-specified): the serialized
absolute href, the components the predicates read, and the decoded query
parameters in document order, duplicates kept — what URLSearchParams
iteration yields. -/
structure Url where
  href : String
  hostname : String
  pathname : String
  searchParams : List (String × String)
  fragment : String
deriving DecidableEq, Repr

/-- URLSearchParams.has: some parameter with this key exists. -/
def paramsHas (ps : List (String × String)) (k : String) : Bool :=
  ps.any (fun p => p.1 == k)

/-- URLSearchParams.get: the value of the first parameter with this key, or
null. -/
def paramsGet (ps : List (String × String)) (k : String) : Option String :=
  (ps.find? (fun p => p.1 == k)).map Prod.snd

/-- Embedding of paramsAreEqual from src/utils.ts: every [key, value] pair
of the first parameter list satisfies params2.has(key) and
params2.get(key) === value. -/
def paramsAreEqual (p1 p2 : List (String × String)) : Bool :=
  p1.all (fun kv => paramsHas p2 kv.1 && (paramsGet p2 kv.1 == some kv.2))

/-- Embedding of hasSameQueryParameters from src/utils.ts: the symmetric
containment check, run in both directions. -/
def hasSameQueryParameters (a b : Url) : Bool :=
  paramsAreEqual a.searchParams b.searchParams &&
    paramsAreEqual b.searchParams a.searchParams

/-- Embedding of isSamePathname from src/utils.ts. -/
def isSamePathname (a b : Url) : Bool := a.pathname == b.pathname

/-- The anchored www-prefix strip of isSameHost. -/
def stripWww (s : String) : String :=
  if s.startsWith "www." then s.drop 4 else s

/-- Embedding of isSameHost from src/utils.ts. -/
def isSameHost (a b : Url) : Bool :=
  stripWww a.hostname == stripWww b.hostname

/-- href.split('#')[0]: the serialized URL up to the first fragment
delimiter. -/
def beforeFragment (s : String) : String := (s.splitOn "#").headD ""

/-- Embedding of isSamePageAnchor from src/utils.ts. -/
def isSamePageAnchor (a b : Url) : Bool :=
  beforeFragment a.href == beforeFragment b.href

/-- The two query-parameter mappings are equal as sets of key/value pairs. -/
def SameAsSets (p1 p2 : List (String × String)) : Prop :=
  ∀ kv, kv ∈ p1 ↔ kv ∈ p2

/-- No key occurs with two different values. -/
def FunctionalParams (ps : List (String × String)) : Prop :=
  ∀ k v w, (k, v) ∈ ps → (k, w) ∈ ps → v = w

lemma paramsGet_mem {ps : List (String × String)} {k v : String}
    (h : paramsGet ps k = some v) : (k, v) ∈ ps := by
  unfold paramsGet at h
  cases hf : ps.find? (fun p => p.1 == k) with
  | none => rw [hf] at h; cases h
  | some kv =>
    rw [hf] at h
    have hm := List.mem_of_find?_eq_some hf
    have hp : kv.1 = k := by simpa using List.find?_some hf
    have hv : kv.2 = v := by simpa using h
    rw [← hp, ← hv]
    simpa using hm

lemma paramsGet_eq_of_mem {ps : List (String × String)} {k v : String}
    (hmem : (k, v) ∈ ps) (hf : FunctionalParams ps) :
    paramsGet ps k = some v := by
  cases hfind : ps.find? (fun p => p.1 == k) with
  | none =>
    have := List.find?_eq_none.mp hfind (k, v) hmem
    simp at this
  | some kv =>
    have hm := List.mem_of_find?_eq_some hfind
    have hp : kv.1 = k := by simpa using List.find?_some hfind
    unfold paramsGet
    rw [hfind]
    have hm2 : (k, kv.2) ∈ ps := by rw [← hp]; simpa using hm
    have hv : kv.2 = v := hf k kv.2 v hm2 hmem
    simp [hv]

lemma paramsHas_of_mem {ps : List (String × String)} {k v : String}
    (h : (k, v) ∈ ps) : paramsHas ps k = true := by
  unfold paramsHas
  rw [List.any_eq_true]
  exact ⟨(k, v), h, by simp⟩

lemma paramsAreEqual_iff (p1 p2 : List (String × String)) :
    paramsAreEqual p1 p2 = true ↔
      ∀ kv ∈ p1, paramsHas p2 kv.1 = true ∧ paramsGet p2 kv.1 = some kv.2 := by
  unfold paramsAreEqual
  rw [List.all_eq_true]
  constructor
  · intro h kv hkv
    have := h kv hkv
    simp only [Bool.and_eq_true, beq_iff_eq] at this
    exact this
  · intro h kv hkv
    have := h kv hkv
    simp only [Bool.and_eq_true, beq_iff_eq]
    exact this

end UrlModel

/-- C8 counterexample: the two URLs carry the queries a=1&a=2 and a=2&a=1 —
their parameter mappings are equal as sets of key/value pairs, merely
differently ordered — yet hasSameQueryParameters returns false, because the
containment check compares each pair against get(key), which yields only the
first value of a duplicated key. -/
theorem hasSameQueryParameters_false_on_reordered_duplicates :
    UrlModel.SameAsSets [("a", "1"), ("a", "2")] [("a", "2"), ("a", "1")] ∧
    UrlModel.hasSameQueryParameters
      { href := "https://example.com/page?a=1&a=2",
        hostname := "example.com", pathname := "/page",
        searchParams := [("a", "1"), ("a", "2")], fragment := "" }
      { href := "https://example.com/page?a=2&a=1",
        hostname := "example.com", pathname := "/page",
        searchParams := [("a", "2"), ("a", "1")], fragment := "" } = false := by
  constructor
  · intro kv
    constructor <;> intro h <;> simp only [List.mem_cons, List.not_mem_nil,
      or_false] at h ⊢ <;> tauto
  · decide

/-- C8 (amended): whenever hasSameQueryParameters returns true the two
query-parameter mappings are equal as sets of key/value pairs (so it
returns false when the mappings differ as sets); and conversely, for URL
pairs in whose queries no key occurs with two different values, set-equal
mappings — regardless of the order in which the parameters appear — make it
return true. -/
theorem hasSameQueryParameters_iff_sets
    (a b : UrlModel.Url) :
    (UrlModel.hasSameQueryParameters a b = true →
      UrlModel.SameAsSets a.searchParams b.searchParams) ∧
    (UrlModel.SameAsSets a.searchParams b.searchParams →
      UrlModel.FunctionalParams a.searchParams →
      UrlModel.FunctionalParams b.searchParams →
      UrlModel.hasSameQueryParameters a b = true) := by
  constructor
  · intro h kv
    unfold UrlModel.hasSameQueryParameters at h
    rw [Bool.and_eq_true, UrlModel.paramsAreEqual_iff,
      UrlModel.paramsAreEqual_iff] at h
    constructor
    · intro hkv
      exact UrlModel.paramsGet_mem (h.1 kv hkv).2
    · intro hkv
      exact UrlModel.paramsGet_mem (h.2 kv hkv).2
  · intro hsets hfa hfb
    unfold UrlModel.hasSameQueryParameters
    rw [Bool.and_eq_true, UrlModel.paramsAreEqual_iff,
      UrlModel.paramsAreEqual_iff]
    constructor
    · intro kv hkv
      have hb : (kv.1, kv.2) ∈ b.searchParams := (hsets kv).mp hkv
      exact ⟨UrlModel.paramsHas_of_mem hb, UrlModel.paramsGet_eq_of_mem hb hfb⟩
    · intro kv hkv
      have ha : (kv.1, kv.2) ∈ a.searchParams := (hsets kv).mpr hkv
      exact ⟨UrlModel.paramsHas_of_mem ha, UrlModel.paramsGet_eq_of_mem ha hfa⟩

lemma functionalParams_pair {k1 v1 k2 v2 : String} (hne : k1 ≠ k2) :
    UrlModel.FunctionalParams [(k1, v1), (k2, v2)] := by
  intro k v w hv hw
  simp only [List.mem_cons, List.not_mem_nil, or_false, Prod.mk.injEq] at hv hw
  rcases hv with ⟨e1, e2⟩ | ⟨e1, e2⟩ <;> rcases hw with ⟨f1, f2⟩ | ⟨f1, f2⟩
  · rw [e2, f2]
  · exact absurd (e1.symm.trans f1) hne
  · exact absurd (e1.symm.trans f1) hne.symm
  · rw [e2, f2]

theorem hasSameQueryParameters_iff_sets_witness :
    UrlModel.hasSameQueryParameters
      { href := "https://example.com/page?x=1&y=2",
        hostname := "example.com", pathname := "/page",
        searchParams := [("x", "1"), ("y", "2")], fragment := "" }
      { href := "https://example.com/page?y=2&x=1",
        hostname := "example.com", pathname := "/page",
        searchParams := [("y", "2"), ("x", "1")], fragment := "" } = true :=
  (hasSameQueryParameters_iff_sets _ _).2
    (by intro kv; constructor <;> intro h <;>
      simp only [List.mem_cons, List.not_mem_nil, or_false] at h ⊢ <;> tauto)
    (functionalParams_pair (by decide))
    (functionalParams_pair (by decide))

/-- The data of the anchor element the click handler reads: the target
attribute and the href (always an absolute serialization in the browser). -/
structure Anchor where
  targetAttr : String
  href : String
deriving DecidableEq, Repr

/-- The click event data the handler reads: the closest anchor ancestor of
the event target, if any, and the modifier keys. -/
structure ClickEvent where
  anchor : Option Anchor
  ctrlKey : Bool
  metaKey : Bool
deriving DecidableEq, Repr

/-- The externally observable action of the click handler: do nothing, start
the bar (followed by installing the pushState override), or force-stop the
bar. -/
inductive ClickOutcome where
  | skip
  | startNav
  | stopBar
deriving DecidableEq, Repr

/-- Embedding of toAbsoluteURL from src/index.tsx: resolve the string
through the browser URL parser — an external collaborator, passed in as
parse — and read the serialized href; a malformed URL propagates the parse
error to the caller. -/
def toAbsoluteURL (parse : String → Except String UrlModel.Url)
    (u : String) : Except String String :=
  (parse u).map (fun x => x.href)

/-- Embedding of isSameHost from src/index.tsx, fallible because the two
parses may throw. -/
def isSameHostE (parse : String → Except String UrlModel.Url)
    (a b : String) : Except String Bool := do
  let cur ← parse a
  let nxt ← parse b
  pure (UrlModel.isSameHost cur nxt)

/-- Embedding of isSamePageAnchor from src/index.tsx, fallible. -/
def isSamePageAnchorE (parse : String → Except String UrlModel.Url)
    (a b : String) : Except String Bool := do
  let cur ← parse a
  let nxt ← parse b
  pure (UrlModel.isSamePageAnchor cur nxt)

/-- The body of handleClick from src/index.tsx — the code inside the try
block: the disqualifying conditions evaluated in source order with
short-circuiting; the result is the action taken. -/
def handleClickBody (parse : String → Except String UrlModel.Url)
    (locationHref : String) (ev : ClickEvent) : Except String ClickOutcome :=
  match ev.anchor with
  | none => .ok .skip
  | some anchor =>
    if anchor.targetAttr = "_blank" then .ok .skip
    else if ev.ctrlKey then .ok .skip
    else if ev.metaKey then .ok .skip
    else do
      let sameHost ← isSameHostE parse locationHref anchor.href
      if !sameHost then return .skip
      let samePage ← isSamePageAnchorE parse locationHref anchor.href
      if samePage then return .skip
      let abs ← toAbsoluteURL parse anchor.href
      if !abs.startsWith "http" then return .skip
      return .startNav

/-- Embedding of handleClick from src/index.tsx: the whole classification
runs inside try/catch and the catch handler force-stops the bar, so the
handler is a total function into outcomes and never rethrows. -/
def handleClick (parse : String → Except String UrlModel.Url)
    (locationHref : String) (ev : ClickEvent) : ClickOutcome :=
  match handleClickBody parse locationHref ev with
  | .ok r => r
  | .error _ => .stopBar

/-- C9: whenever any URL-predicate evaluation during the navigation
classification of a click throws — the classification body yields an
error — the click handler catches it and force-stops the bar; and the
handler is a total function into outcomes, so no error reaches the hosting
application. -/
theorem handleClick_catches_and_stops
    (parse : String → Except String UrlModel.Url) (locationHref : String)
    (ev : ClickEvent) (e : String)
    (h : handleClickBody parse locationHref ev = .error e) :
    handleClick parse locationHref ev = .stopBar := by
  unfold handleClick
  rw [h]

theorem handleClick_catches_and_stops_witness :
    handleClick (fun _ => .error "Invalid URL") "https://example.com/"
      { anchor := some { targetAttr := "", href := "/page" },
        ctrlKey := false, metaKey := false } = .stopBar :=
  handleClick_catches_and_stops (fun _ => .error "Invalid URL")
    "https://example.com/"
    { anchor := some { targetAttr := "", href := "/page" },
      ctrlKey := false, metaKey := false } "Invalid URL" rfl

/-- Modelled from the spec: the click-qualification rule of the current
Navigation Binder.  The current index.tsx is missing from src/ — the
index.tsx present is a stale variant without the pathname/query rule or the
ignore-query-string option, while the binder's tests, the URL predicates of
utils.ts it calls, and its default options (constants.ts) are present.
Spec §4.4: only anchor clicks qualify, and any one of these skips the
loader: target attribute _blank; ctrl or meta held; different host;
same-page fragment anchor; a URL that does not resolve to http(s); or the
target's pathname and — unless the ignore-query-string option is set — its
query parameters matching the current location exactly. -/
def shouldStartLoader (ignoreSearchParams : Bool) (location : UrlModel.Url)
    (anchor : Option (String × UrlModel.Url)) (ctrlKey metaKey : Bool) :
    Bool :=
  match anchor with
  | none => false
  | some (targetAttr, url) =>
    !(targetAttr == "_blank" || ctrlKey || metaKey ||
      !UrlModel.isSameHost location url ||
      UrlModel.isSamePageAnchor location url ||
      !url.href.startsWith "http" ||
      (UrlModel.isSamePathname location url &&
        (ignoreSearchParams || UrlModel.hasSameQueryParameters location url)))

/-- C5 (spec-modelled): for every click on an anchor whose URL has the same
pathname as the current location and — unless the ignore-query-string
option is set — the same query parameters, the click handler does not start
the loader, whatever the anchor attributes and modifier keys. -/
theorem same_destination_click_does_not_start
    (ignoreSearchParams : Bool) (location url : UrlModel.Url)
    (targetAttr : String) (ctrlKey metaKey : Bool)
    (hpath : UrlModel.isSamePathname location url = true)
    (hquery : ignoreSearchParams = true ∨
      UrlModel.hasSameQueryParameters location url = true) :
    shouldStartLoader ignoreSearchParams location (some (targetAttr, url))
      ctrlKey metaKey = false := by
  unfold shouldStartLoader
  rcases hquery with h | h <;> simp [hpath, h]

theorem same_destination_click_does_not_start_witness :
    shouldStartLoader false
      { href := "https://example.com/page?x=1", hostname := "example.com",
        pathname := "/page", searchParams := [("x", "1")], fragment := "" }
      (some ("",
        { href := "https://example.com/page?x=1", hostname := "example.com",
          pathname := "/page", searchParams := [("x", "1")], fragment := "" }))
      false false = false :=
  same_destination_click_does_not_start false _ _ "" false false
    (by decide) (Or.inr (by decide))

/-- What the wrapped history method does, in execution order. -/
inductive HistoryEvent where
  | completeBar
  | originalCall
deriving DecidableEq, Repr

/-- Modelled from the spec: the wrapper the current binder installs around
history.replaceState (and pushState), absent from src/ together with the
rest of the current index.tsx.  Spec §4.4: before the original call runs,
the wrapper compares the new URL's pathname/query — subject to the same
ignore-query-string rule — against the current location; if identical the
original call proceeds without touching the bar, otherwise the bar is
completed first. -/
def wrappedReplaceState (ignoreSearchParams : Bool)
    (location target : UrlModel.Url) : List HistoryEvent :=
  if UrlModel.isSamePathname location target &&
      (ignoreSearchParams || UrlModel.hasSameQueryParameters location target)
  then [.originalCall]
  else [.completeBar, .originalCall]

/-- C6 (spec-modelled): after the binder has mounted, a replaceState whose
new URL has a different pathname completes (fades out) the bar before the
original replaceState executes — the completion strictly precedes the
original call in the event list — while an identical pathname/query leaves
the bar untouched and just runs the original call. -/
theorem replaceState_completes_before_original
    (ignoreSearchParams : Bool) (location target : UrlModel.Url) :
    (UrlModel.isSamePathname location target = false →
      wrappedReplaceState ignoreSearchParams location target =
        [.completeBar, .originalCall]) ∧
    (UrlModel.isSamePathname location target = true →
      (ignoreSearchParams = true ∨
        UrlModel.hasSameQueryParameters location target = true) →
      wrappedReplaceState ignoreSearchParams location target =
        [.originalCall]) := by
  constructor
  · intro h
    unfold wrappedReplaceState
    rw [h]
    simp
  · intro h hq
    unfold wrappedReplaceState
    rcases hq with hq | hq <;> rw [h, hq] <;> simp

theorem replaceState_completes_before_original_witness :
    wrappedReplaceState false
      { href := "https://example.com/a", hostname := "example.com",
        pathname := "/a", searchParams := [], fragment := "" }
      { href := "https://example.com/b", hostname := "example.com",
        pathname := "/b", searchParams := [], fragment := "" } =
      [.completeBar, .originalCall] :=
  (replaceState_completes_before_original false _ _).1 (by decide)

/-- The history-patching state of the document: whether the boolean guard
records an earlier patch, and how many wrappers sit around the original
pushState/replaceState. -/
structure HistoryPatchState where
  isPatched : Bool
  wrapLayers : ℕ
deriving DecidableEq, Repr

/-- Before any binder mounts, history methods are unwrapped. -/
def initialPatchState : HistoryPatchState := ⟨false, 0⟩

/-- Modelled from the spec: on binder mount the history methods are wrapped
once, guarded by a boolean so that repeated binder mounts within the same
document lifetime never wrap again (the current index.tsx holding this
guard is missing from src/). -/
def mountBinder (s : HistoryPatchState) : HistoryPatchState :=
  if s.isPatched then s
  else { isPatched := true, wrapLayers := s.wrapLayers + 1 }

/-- The binder-lifecycle happenings relevant to history patching: a binder
mount, and a qualifying click — which starts the bar but, per the spec,
does not patch history (patching happens at mount time only). -/
inductive BinderEvent where
  | mount
  | qualifyingClick
deriving DecidableEq, Repr

def applyBinderEvent (e : BinderEvent) (s : HistoryPatchState) :
    HistoryPatchState :=
  match e with
  | .mount => mountBinder s
  | .qualifyingClick => s

def applyBinderEvents (evs : List BinderEvent) (s : HistoryPatchState) :
    HistoryPatchState :=
  evs.foldl (fun s e => applyBinderEvent e s) s

lemma applyBinderEvents_wrapLayers (evs : List BinderEvent) :
    ∀ s : HistoryPatchState, (s.isPatched = false → s.wrapLayers = 0) →
      s.wrapLayers ≤ 1 →
      (applyBinderEvents evs s).wrapLayers ≤ 1 := by
  induction evs with
  | nil => intro s _ h1; simpa [applyBinderEvents] using h1
  | cons e evs ih =>
    intro s h0 h1
    have hstep : ((applyBinderEvent e s).isPatched = false →
        (applyBinderEvent e s).wrapLayers = 0) ∧
        (applyBinderEvent e s).wrapLayers ≤ 1 := by
      cases e with
      | qualifyingClick => exact ⟨h0, h1⟩
      | mount =>
        simp only [applyBinderEvent]
        unfold mountBinder
        by_cases hp : s.isPatched
        · rw [if_pos hp]
          exact ⟨h0, h1⟩
        · rw [if_neg hp]
          refine ⟨?_, ?_⟩
          · intro h
            cases h
          · have h2 := h0 (by simpa using hp)
            simp [h2]
    have := ih (applyBinderEvent e s) hstep.1 hstep.2
    simpa [applyBinderEvents] using this

/-- C7 (spec-modelled): the history methods are wrapped at most once per
document lifetime: starting from the unpatched document, no sequence of
binder mounts and qualifying clicks ever leaves more than one wrapper
around pushState/replaceState — the boolean guard makes re-wrapping
impossible. -/
theorem history_wrapped_at_most_once (evs : List BinderEvent) :
    (applyBinderEvents evs initialPatchState).wrapLayers ≤ 1 :=
  applyBinderEvents_wrapLayers evs initialPatchState (fun _ => rfl)
    (by norm_num [initialPatchState])

end HolyLoader
